import Mathlib

/-!
Verification of the claude-code-gateway core against its source.

Shallow embedding of:
- `src/packages/gateway/src/concurrency.ts` (admission control, tool
  resolution, environment tool-list parsing),
- `src/packages/sdk/src/index.ts` (the SSE byte-stream parser and the
  streaming metadata/text transform),
- the stream-route argument builder (implementation absent from the
  sources; modelled from the spec and the repository's own tests).

Module-scoped mutable state becomes explicit state passing; JS
`undefined`-able values become `Option`; JS numbers holding small counts
become `Int` with the source's explicit `Math.max(0, _)` flooring.
-/

/-! ## Concurrency admission control (`concurrency.ts`) -/

/-- `RequestType` from concurrency.ts: the two independent pools. -/
inductive RequestType
  | streaming
  | nonStreaming
  deriving DecidableEq, Repr

/-- `ConcurrencyConfig` from concurrency.ts. -/
structure ConcurrencyConfig where
  maxStreamingConcurrent : Int
  maxNonStreamingConcurrent : Int
  deriving DecidableEq, Repr

/-- The module-scoped counters `streamingCount` / `nonStreamingCount`. -/
structure ConcState where
  streamingCount : Int
  nonStreamingCount : Int
  deriving DecidableEq, Repr

/-- The counter of the given pool. -/
def ConcState.count (s : ConcState) : RequestType → Int
  | .streaming => s.streamingCount
  | .nonStreaming => s.nonStreamingCount

/-- The configured maximum of the given pool. -/
def ConcurrencyConfig.maxOf (cfg : ConcurrencyConfig) : RequestType → Int
  | .streaming => cfg.maxStreamingConcurrent
  | .nonStreaming => cfg.maxNonStreamingConcurrent

/-- `acquireSlot` from concurrency.ts: returns whether the slot was
acquired, together with the updated module state. -/
def acquireSlot (cfg : ConcurrencyConfig) (t : RequestType) (s : ConcState) :
    Bool × ConcState :=
  match t with
  | .streaming =>
      if s.streamingCount ≥ cfg.maxStreamingConcurrent then (false, s)
      else (true, { s with streamingCount := s.streamingCount + 1 })
  | .nonStreaming =>
      if s.nonStreamingCount ≥ cfg.maxNonStreamingConcurrent then (false, s)
      else (true, { s with nonStreamingCount := s.nonStreamingCount + 1 })

/-- `releaseSlot` from concurrency.ts: decrement floored at zero via
`Math.max(0, count - 1)`. -/
def releaseSlot (t : RequestType) (s : ConcState) : ConcState :=
  match t with
  | .streaming => { s with streamingCount := max 0 (s.streamingCount - 1) }
  | .nonStreaming => { s with nonStreamingCount := max 0 (s.nonStreamingCount - 1) }

/-- `resetState` from concurrency.ts. -/
def resetState : ConcState := { streamingCount := 0, nonStreamingCount := 0 }

/-- The per-request release closure of `withConcurrencyLimit`: the
`released` flag guards `releaseSlot` so that only the first invocation
releases. -/
def requestRelease (t : RequestType) (released : Bool) (s : ConcState) :
    Bool × ConcState :=
  if released then (released, s)
  else (true, releaseSlot t s)

/-- Invoking the per-request release callback `n` times in a row,
threading the `released` flag and the pool state. -/
def requestReleaseIter (t : RequestType) : Nat → Bool → ConcState → Bool × ConcState
  | 0, released, s => (released, s)
  | n + 1, released, s =>
      let p := requestRelease t released s
      requestReleaseIter t n p.1 p.2

/-- Performing `n` consecutive `acquireSlot` calls; the Bool is whether
every call succeeded. -/
def acquireN (cfg : ConcurrencyConfig) (t : RequestType) :
    Nat → ConcState → Bool × ConcState
  | 0, s => (true, s)
  | n + 1, s =>
      let p := acquireSlot cfg t s
      if p.1 then
        let q := acquireN cfg t n p.2
        (q.1, q.2)
      else (false, p.2)

lemma acquireSlot_count_lt (cfg : ConcurrencyConfig) (t : RequestType) (s : ConcState)
    (h : s.count t < cfg.maxOf t) :
    acquireSlot cfg t s = (true, match t with
      | .streaming => { s with streamingCount := s.streamingCount + 1 }
      | .nonStreaming => { s with nonStreamingCount := s.nonStreamingCount + 1 }) := by
  cases t <;>
    simp only [acquireSlot] <;>
    rw [if_neg (by simpa [ConcState.count, ConcurrencyConfig.maxOf, not_le] using h)]

lemma acquireSlot_count_ge (cfg : ConcurrencyConfig) (t : RequestType) (s : ConcState)
    (h : cfg.maxOf t ≤ s.count t) :
    acquireSlot cfg t s = (false, s) := by
  cases t <;>
    simp only [acquireSlot] <;>
    rw [if_pos (by simpa [ConcState.count, ConcurrencyConfig.maxOf] using h)]

lemma acquireSlot_count_other (cfg : ConcurrencyConfig) (t t' : RequestType)
    (s : ConcState) (h : t ≠ t') :
    (acquireSlot cfg t s).2.count t' = s.count t' := by
  cases t <;> cases t' <;> simp_all [acquireSlot, ConcState.count] <;>
    split <;> simp [ConcState.count]

lemma acquireSlot_succ_count (cfg : ConcurrencyConfig) (t : RequestType) (s : ConcState)
    (h : s.count t < cfg.maxOf t) :
    (acquireSlot cfg t s).2.count t = s.count t + 1 := by
  rw [acquireSlot_count_lt cfg t s h]
  cases t <;> simp [ConcState.count]

/-- After `k` acquires starting below capacity by at least `k`, all
succeed and the count rises by `k` (the other pool untouched). -/
lemma acquireN_all_succeed (cfg : ConcurrencyConfig) (t : RequestType) :
    ∀ (k : Nat) (s : ConcState), s.count t + k ≤ cfg.maxOf t →
      (acquireN cfg t k s).1 = true ∧
      (acquireN cfg t k s).2.count t = s.count t + k := by
  intro k
  induction k with
  | zero => intro s _; simp [acquireN]
  | succ n ih =>
      intro s h
      have hlt : s.count t < cfg.maxOf t := by
        have : (n : Int) + 1 = ((n + 1 : Nat) : Int) := by push_cast; ring
        omega
      have hstep := acquireSlot_count_lt cfg t s hlt
      have hcount : (acquireSlot cfg t s).2.count t = s.count t + 1 :=
        acquireSlot_succ_count cfg t s hlt
      have hfst : (acquireSlot cfg t s).1 = true := by rw [hstep]
      have hrec := ih (acquireSlot cfg t s).2 (by rw [hcount]; push_cast at h; omega)
      simp only [acquireN, hfst, if_true]
      refine ⟨hrec.1, ?_⟩
      rw [hrec.2, hcount]
      push_cast; ring

/-- C5 body: threshold behavior of a single acquire, plus the
M-acquires-then-fail-then-release-then-succeed scenario. -/
theorem acquireSlot_spec (cfg : ConcurrencyConfig) (t : RequestType) (s : ConcState)
    (m : Nat) (hm : cfg.maxOf t = (m : Int)) :
    (cfg.maxOf t ≤ s.count t → acquireSlot cfg t s = (false, s)) ∧
    (s.count t < cfg.maxOf t →
      (acquireSlot cfg t s).1 = true ∧
      (acquireSlot cfg t s).2.count t = s.count t + 1) ∧
    ((acquireN cfg t m resetState).1 = true ∧
      (acquireSlot cfg t (acquireN cfg t m resetState).2).1 = false) ∧
    (0 < m →
      (acquireSlot cfg t (releaseSlot t (acquireN cfg t m resetState).2)).1 = true) := by
  have hreset : resetState.count t = 0 := by cases t <;> rfl
  have hall := acquireN_all_succeed cfg t (k := m) resetState (by rw [hreset, hm]; omega)
  refine ⟨fun h => acquireSlot_count_ge cfg t s h,
    fun h => ⟨by rw [acquireSlot_count_lt cfg t s h], acquireSlot_succ_count cfg t s h⟩,
    ⟨hall.1, ?_⟩, fun hpos => ?_⟩
  · have : cfg.maxOf t ≤ (acquireN cfg t m resetState).2.count t := by
      rw [hall.2, hreset, hm]; omega
    rw [acquireSlot_count_ge cfg t _ this]
  · have hc : (acquireN cfg t m resetState).2.count t = (m : Int) := by
      rw [hall.2, hreset]; omega
    have hrel : (releaseSlot t (acquireN cfg t m resetState).2).count t = (m : Int) - 1 := by
      cases t <;>
        simp only [releaseSlot, ConcState.count] <;>
        · have := hc
          simp only [ConcState.count] at this
          omega
    have hlt : (releaseSlot t (acquireN cfg t m resetState).2).count t < cfg.maxOf t := by
      rw [hrel, hm]; omega
    rw [acquireSlot_count_lt cfg t _ hlt]

lemma requestReleaseIter_released (t : RequestType) :
    ∀ (n : Nat) (s : ConcState), requestReleaseIter t n true s = (true, s) := by
  intro n
  induction n with
  | zero => intro s; rfl
  | succ k ih => intro s; simpa [requestReleaseIter, requestRelease] using ih s

/-- C4 body: the release floor-at-zero law, idempotence of the wrapped
per-request release, and that any `n ≥ 1` invocations of the wrapper's
release callback perform exactly one `releaseSlot` — so redundant
releases cannot change what a subsequent acquire does. -/
theorem releaseSlot_idempotent_spec (t : RequestType) (s : ConcState) (n : Nat)
    (hn : 1 ≤ n) :
    (releaseSlot t s).count t = max 0 (s.count t - 1) ∧
    requestRelease t (requestRelease t false s).1 (requestRelease t false s).2 =
      requestRelease t false s ∧
    requestReleaseIter t n false s = (true, releaseSlot t s) ∧
    (∀ cfg : ConcurrencyConfig,
      acquireSlot cfg t (requestReleaseIter t n false s).2 =
        acquireSlot cfg t (releaseSlot t s)) := by
  have hiter : requestReleaseIter t n false s = (true, releaseSlot t s) := by
    obtain ⟨k, rfl⟩ : ∃ k, n = k + 1 := ⟨n - 1, by omega⟩
    simpa [requestReleaseIter, requestRelease] using
      requestReleaseIter_released t k (releaseSlot t s)
  refine ⟨?_, ?_, hiter, fun cfg => by rw [hiter]⟩
  · cases t <;> rfl
  · simp [requestRelease]

/-! ## Tool restriction resolver (tools module in the gateway sources) -/

/-- `resolveAllowedTools` from the gateway's tools module. `none` for a
field models JS `undefined`; the result `none` is the "unrestricted"
sentinel. The two `gatewayDisallowed` filter passes of the source are
kept as written. -/
def resolveAllowedTools (gatewayAllowed gatewayDisallowed requestAllowed :
    Option (List String)) : Option (List String) :=
  let effective1 : Option (List String) := gatewayAllowed
  let effective2 : Option (List String) :=
    match effective1, gatewayDisallowed with
    | some e, some d => some (e.filter (fun t => !d.contains t))
    | e, _ => e
  let effective3 : Option (List String) :=
    match requestAllowed with
    | some r =>
        match effective2 with
        | some e => some (e.filter (fun t => r.contains t))
        | none => some r
    | none => effective2
  match effective3, gatewayDisallowed with
  | some e, some d => some (e.filter (fun t => !d.contains t))
  | e, _ => e

lemma mem_filter_not_contains {x : String} {D l : List String}
    (hx : x ∈ l.filter (fun t => !D.contains t)) : x ∉ D := by
  have := List.of_mem_filter hx
  simpa using this

/-- C1: whenever the result is an explicit list and a deployment deny
list was supplied, no denied tool is in the result. -/
theorem resolveAllowedTools_excludes_denied
    (A R : Option (List String)) (D out : List String)
    (h : resolveAllowedTools A (some D) R = some out) :
    ∀ x ∈ out, x ∉ D := by
  intro x hx
  cases A with
  | none =>
      cases R with
      | none => simp [resolveAllowedTools] at h
      | some r =>
          simp only [resolveAllowedTools, Option.some.injEq] at h
          subst h
          exact mem_filter_not_contains hx
  | some a =>
      cases R with
      | none =>
          simp only [resolveAllowedTools, Option.some.injEq] at h
          subst h
          exact mem_filter_not_contains hx
      | some r =>
          simp only [resolveAllowedTools, Option.some.injEq] at h
          subst h
          exact mem_filter_not_contains hx

/-- C8: a deployment deny list alone, with no allow-list anywhere,
yields the unrestricted sentinel. -/
theorem resolveAllowedTools_deny_only_unrestricted (D : List String) :
    resolveAllowedTools none (some D) none = none := rfl

/-- Membership test of an optional deny list, as used by the two
`gatewayDisallowed` filter passes. -/
def denyHits (D : Option (List String)) (t : String) : Bool :=
  match D with
  | some d => d.contains t
  | none => false

/-- C7: with a deployment allow list and a request list both present, the
result is explicit and equals the deployment list filtered to the tools
the request names (minus denied ones): the intersection carries the
deployment list's order. -/
theorem resolveAllowedTools_intersection_order
    (A R : List String) (D : Option (List String)) :
    resolveAllowedTools (some A) D (some R) =
      some (A.filter (fun t => R.contains t && !denyHits D t)) := by
  cases D with
  | none =>
      simp only [resolveAllowedTools, denyHits]
      congr 1
      apply List.filter_congr
      intro x _
      simp
  | some d =>
      simp only [resolveAllowedTools, denyHits]
      rw [List.filter_filter, List.filter_filter]
      congr 1
      apply List.filter_congr
      intro x _
      cases hR : R.contains x <;> cases hd : d.contains x <;> simp [hR, hd]

/-! ## Environment tool-list parsing (config module in the gateway sources) -/

/-- JSON values, as produced by `JSON.parse`. -/
inductive Json
  | null
  | bool (b : Bool)
  | num (n : Int)
  | str (s : String)
  | arr (elems : List Json)
  | obj (fields : List (String × Json))

/-- Whether a JSON value is a string (`typeof t === "string"`). -/
def Json.isStr : Json → Bool
  | .str _ => true
  | _ => false

/-- `parseToolList` from the gateway's config module. `JSON.parse` is an
external builtin and is passed in as `jsonParse`, returning `none` when
it throws. `envVar = none` models an unset variable; the source's
`if (!envVar)` also treats the empty string as unset. -/
def parseToolList (envVar : Option String) (jsonParse : String → Option Json) :
    Option (List String) :=
  match envVar with
  | none => none
  | some v =>
      if v = "" then none
      else
        match jsonParse v with
        | none => none
        | some j =>
            match j with
            | Json.arr elems =>
                let tools := elems.filterMap fun e =>
                  match e with
                  | Json.str s => some s
                  | _ => none
                if tools = [] then none else some tools
            | _ => none

/-- C10: every degenerate input — unset variable, JSON parse failure,
non-array JSON, array without any string element (the explicit empty
array in particular) — yields `none`, i.e. is treated as if no list were
configured. -/
theorem parseToolList_invalid_unrestricted :
    (∀ p : String → Option Json, parseToolList none p = none) ∧
    (∀ (v : String) (p : String → Option Json), p v = none →
      parseToolList (some v) p = none) ∧
    (∀ (v : String) (p : String → Option Json) (j : Json), p v = some j →
      (∀ l, j ≠ Json.arr l) → parseToolList (some v) p = none) ∧
    (∀ (v : String) (p : String → Option Json) (l : List Json),
      p v = some (Json.arr l) → (∀ e ∈ l, e.isStr = false) →
      parseToolList (some v) p = none) := by
  refine ⟨fun p => rfl, fun v p hp => ?_, fun v p j hp hj => ?_, fun v p l hp hl => ?_⟩
  · by_cases hv : v = ""
    · simp only [parseToolList, hv, if_pos]
    · simp only [parseToolList, if_neg hv, hp]
  · by_cases hv : v = ""
    · simp only [parseToolList, hv, if_pos]
    · simp only [parseToolList, if_neg hv, hp]
  · by_cases hv : v = ""
    · simp only [parseToolList, hv, if_pos]
    · simp only [parseToolList, if_neg hv, hp]
      have : (l.filterMap fun e =>
          match e with
          | Json.str s => some s
          | _ => none) = [] := by
        rw [List.filterMap_eq_nil_iff]
        intro e he
        match e, hl e he with
        | Json.null, _ => rfl
        | Json.bool b, _ => rfl
        | Json.num n, _ => rfl
        | Json.obj f, _ => rfl
        | Json.arr l2, _ => rfl
      simp only [this]
      rfl

/-- Witness for C10 at concrete inputs: unset; invalid JSON (parse
throws on "not json"); non-array JSON `5`; array of non-strings
`[1,true]`; and the explicit empty array `[]`. -/
theorem parseToolList_invalid_unrestricted_witness :
    parseToolList none (fun _ => some (Json.num 0)) = none ∧
    parseToolList (some "not json") (fun _ => none) = none ∧
    parseToolList (some "5") (fun _ => some (Json.num 5)) = none ∧
    parseToolList (some "[1,true]")
      (fun _ => some (Json.arr [Json.num 1, Json.bool true])) = none ∧
    parseToolList (some "[]") (fun _ => some (Json.arr [])) = none :=
  ⟨parseToolList_invalid_unrestricted.1 _,
   parseToolList_invalid_unrestricted.2.1 "not json" _ rfl,
   parseToolList_invalid_unrestricted.2.2.1 "5" _ (Json.num 5) rfl
     (fun l h => Json.noConfusion h),
   parseToolList_invalid_unrestricted.2.2.2 "[1,true]" _
     [Json.num 1, Json.bool true] rfl (by intro e he; fin_cases he <;> rfl),
   parseToolList_invalid_unrestricted.2.2.2 "[]" _ [] rfl (by intro e he; cases he)⟩

/-! ## Stream-route argument construction -/

/-- Options accepted by the stream-route argument builders. -/
structure StreamArgsOptions where
  prompt : String
  system : Option String := none
  model : Option String := none
  sessionId : Option String := none
  allowedTools : Option (List String) := none

/-- Modelled from the spec: `buildStreamArgs` (src/routes/stream.ts) is
not among the provided sources. This definition follows §4.1's argument
construction together with the repository's own tests
(`__tests__/routes/stream-args.test.ts`), which pin the base flags, the
prompt-last invariant, the `--model`/`--system-prompt`/`--resume` pairs,
and the `allowedTools` handling — including that the `--allowedTools`
flag is omitted both when the list is absent and when it is empty. -/
def buildStreamArgs (o : StreamArgsOptions) : List String :=
  ["--print", "--verbose", "--output-format", "stream-json",
   "--include-partial-messages"]
  ++ (match o.model with | some m => ["--model", m] | none => [])
  ++ (match o.system with | some s => ["--system-prompt", s] | none => [])
  ++ (match o.sessionId with | some sid => ["--resume", sid] | none => [])
  ++ (match o.allowedTools with
      | some ts => if ts.isEmpty then [] else "--allowedTools" :: ts
      | none => [])
  ++ [o.prompt]

/-- C2 counterexample: with the resolved tool set being the explicit
empty list, the constructed arguments do not contain `--allowedTools`;
the flag is omitted, as the repository's tests require. -/
theorem buildStreamArgs_empty_list_omits_flag :
    "--allowedTools" ∉ buildStreamArgs
      { prompt := "test", allowedTools := some [] } := by
  decide

/-- C2 (amended): a non-empty explicit tool list yields `--allowedTools`
followed by the tools in resolver order; an absent or empty list
contributes no `--allowedTools` token (the guards rule out the other
free-form fields literally being that string). -/
theorem buildStreamArgs_allowedTools_flag (o : StreamArgsOptions) :
    (∀ ts, o.allowedTools = some ts → ts ≠ [] →
      List.IsInfix ("--allowedTools" :: ts) (buildStreamArgs o)) ∧
    ((o.allowedTools = none ∨ o.allowedTools = some []) →
      o.prompt ≠ "--allowedTools" →
      (∀ m, o.model = some m → m ≠ "--allowedTools") →
      (∀ s, o.system = some s → s ≠ "--allowedTools") →
      (∀ sid, o.sessionId = some sid → sid ≠ "--allowedTools") →
      "--allowedTools" ∉ buildStreamArgs o) := by
  constructor
  · intro ts hts hne
    have htool : (match o.allowedTools with
        | some ts' => if ts'.isEmpty then [] else "--allowedTools" :: ts'
        | none => []) = "--allowedTools" :: ts := by
      rw [hts]
      cases ts with
      | nil => exact absurd rfl hne
      | cons a l => rfl
    unfold buildStreamArgs
    rw [htool]
    exact ⟨["--print", "--verbose", "--output-format", "stream-json",
        "--include-partial-messages"]
      ++ (match o.model with | some m => ["--model", m] | none => [])
      ++ (match o.system with | some s => ["--system-prompt", s] | none => [])
      ++ (match o.sessionId with | some sid => ["--resume", sid] | none => []),
      [o.prompt], by simp [List.append_assoc]⟩
  · intro hAT hprompt hm hs hsid
    have htool : (match o.allowedTools with
        | some ts' => if ts'.isEmpty then [] else "--allowedTools" :: ts'
        | none => []) = [] := by
      rcases hAT with h | h
      · rw [h]
      · rw [h]; rfl
    unfold buildStreamArgs
    rw [htool]
    intro hmem
    rcases List.mem_append.1 hmem with h1 | hp
    · rw [List.append_nil] at h1
      rcases List.mem_append.1 h1 with h2 | hre
      · rcases List.mem_append.1 h2 with h3 | hsy
        · rcases List.mem_append.1 h3 with hbase | hmo
          · exact absurd hbase (by decide)
          · cases hm2 : o.model with
            | none => rw [hm2] at hmo; exact absurd hmo (List.not_mem_nil _)
            | some m =>
                rw [hm2] at hmo
                rcases List.mem_cons.1 hmo with h | h
                · exact absurd h (by decide)
                · exact hm m hm2 (List.mem_singleton.1 h).symm
        · cases hs2 : o.system with
          | none => rw [hs2] at hsy; exact absurd hsy (List.not_mem_nil _)
          | some s =>
              rw [hs2] at hsy
              rcases List.mem_cons.1 hsy with h | h
              · exact absurd h (by decide)
              · exact hs s hs2 (List.mem_singleton.1 h).symm
      · cases hr2 : o.sessionId with
        | none => rw [hr2] at hre; exact absurd hre (List.not_mem_nil _)
        | some sid =>
            rw [hr2] at hre
            rcases List.mem_cons.1 hre with h | h
            · exact absurd h (by decide)
            · exact hsid sid hr2 (List.mem_singleton.1 h).symm
    · exact hprompt (List.mem_singleton.1 hp).symm

/-- Witness for the amended C2 at concrete inputs: a two-tool list is
emitted after the flag; the empty list omits the flag. -/
theorem buildStreamArgs_allowedTools_flag_witness :
    List.IsInfix ["--allowedTools", "Read", "Glob"]
      (buildStreamArgs { prompt := "go", allowedTools := some ["Read", "Glob"] }) ∧
    "--allowedTools" ∉ buildStreamArgs
      { prompt := "go", allowedTools := some [] } :=
  ⟨(buildStreamArgs_allowedTools_flag _).1 ["Read", "Glob"] rfl (by decide),
   (buildStreamArgs_allowedTools_flag _).2 (Or.inr rfl) (by decide)
     (fun m h => by cases h) (fun s h => by cases h) (fun sid h => by cases h)⟩

/-- Witness for C5 at `max = 3` on the streaming pool: three acquires
succeed, the fourth fails, and after one release an acquire succeeds. -/
theorem acquireSlot_spec_witness :
    (acquireN ⟨3, 5⟩ .streaming 3 resetState).1 = true ∧
    (acquireSlot ⟨3, 5⟩ .streaming (acquireN ⟨3, 5⟩ .streaming 3 resetState).2).1
      = false ∧
    (acquireSlot ⟨3, 5⟩ .streaming
      (releaseSlot .streaming (acquireN ⟨3, 5⟩ .streaming 3 resetState).2)).1
      = true :=
  ⟨(acquireSlot_spec ⟨3, 5⟩ .streaming resetState 3 rfl).2.2.1.1,
   (acquireSlot_spec ⟨3, 5⟩ .streaming resetState 3 rfl).2.2.1.2,
   (acquireSlot_spec ⟨3, 5⟩ .streaming resetState 3 rfl).2.2.2 (by decide)⟩

/-- Witness for C4 at a concrete state: three invocations of the
per-request release callback amount to exactly one `releaseSlot`. -/
theorem releaseSlot_idempotent_spec_witness :
    requestReleaseIter .streaming 3 false ⟨2, 0⟩ =
      (true, releaseSlot .streaming ⟨2, 0⟩) :=
  (releaseSlot_idempotent_spec .streaming ⟨2, 0⟩ 3 (by decide)).2.2.1

/-- Witness for C1 at a concrete input: with deployment allow
`["Read", "Write"]` and deny `["Write"]`, the result contains `"Read"`
and `"Read"` is indeed not denied. -/
theorem resolveAllowedTools_excludes_denied_witness :
    "Read" ∉ (["Write"] : List String) :=
  resolveAllowedTools_excludes_denied (some ["Read", "Write"]) none
    ["Write"] ["Read"] (by decide) "Read" (by decide)

/-! ## Client SSE wire parser (`createSSEParser` in sdk/src/index.ts)

The byte stream is modelled at decoded-character granularity (splitting a
multi-byte UTF-8 character across chunks is absorbed by the streaming
`TextDecoder`, an external builtin). -/

/-- Prepend a character to the first part of a split result. -/
def consHead (c : Char) : List (List Char) → List (List Char)
  | [] => [[c]]
  | l :: ls => (c :: l) :: ls

/-- `buffer.split("\n\n")`: left-to-right, non-overlapping occurrences of
the two-newline record delimiter. -/
def splitRecords : List Char → List (List Char)
  | [] => [[]]
  | '\n' :: '\n' :: rest => [] :: splitRecords rest
  | c :: rest => consHead c (splitRecords rest)

/-- The trailing element of the split (`events.pop() || ""`). -/
def lastD : List (List Char) → List Char
  | [] => []
  | [l] => l
  | _ :: ls => lastD ls

lemma consHead_ne_nil (c : Char) (l : List (List Char)) : consHead c l ≠ [] := by
  cases l <;> simp [consHead]

lemma splitRecords_ne_nil (l : List Char) : splitRecords l ≠ [] := by
  induction l using splitRecords.induct with
  | case1 => simp [splitRecords]
  | case2 rest ih => simp [splitRecords]
  | case3 c rest h ih =>
      rw [splitRecords]
      · exact consHead_ne_nil c (splitRecords rest)
      · exact h

/-- The catch-all equation of `splitRecords` under its explicit
no-delimiter-at-head side condition. -/
lemma splitRecords_cons (c : Char) (l : List Char)
    (h : ∀ t, c = '\n' → l = '\n' :: t → False) :
    splitRecords (c :: l) = consHead c (splitRecords l) := by
  rw [splitRecords]
  exact fun t hc hl => h t hc hl

/-- When a split collapses to a single part, that part starts with the
first input character. -/
lemma splitRecords_single_head (r : Char) (rs s : List Char)
    (h : splitRecords (r :: rs) = [s]) : ∃ t, s = r :: t := by
  by_cases hsep : r = '\n' ∧ ∃ t, rs = '\n' :: t
  · obtain ⟨hr, t, ht⟩ := hsep
    subst hr; subst ht
    rw [show splitRecords ('\n' :: '\n' :: t) = [] :: splitRecords t from rfl] at h
    cases h2 : splitRecords t with
    | nil => exact absurd h2 (splitRecords_ne_nil t)
    | cons a as => rw [h2] at h; simp at h
  · have h3 : splitRecords (r :: rs) = consHead r (splitRecords rs) := by
      apply splitRecords_cons
      intro t hc hl
      exact hsep ⟨hc, t, hl⟩
    rw [h3] at h
    cases h2 : splitRecords rs with
    | nil => exact absurd h2 (splitRecords_ne_nil rs)
    | cons a as =>
        rw [h2] at h
        simp only [consHead, List.cons.injEq] at h
        exact ⟨a, h.1.symm⟩

/-- Splitting distributes over concatenation: the completed parts of `x`
are final, and the trailing part resumes with `y` appended. This is the
core of the buffering argument. -/
lemma splitRecords_append (x y : List Char) :
    splitRecords (x ++ y) =
      (splitRecords x).dropLast ++ splitRecords (lastD (splitRecords x) ++ y) := by
  induction x using splitRecords.induct with
  | case1 => rfl
  | case2 rest ih =>
      obtain ⟨s, ss, hS⟩ := List.exists_cons_of_ne_nil (splitRecords_ne_nil rest)
      rw [List.cons_append, List.cons_append,
        show splitRecords ('\n' :: '\n' :: (rest ++ y)) = [] :: splitRecords (rest ++ y)
          from rfl,
        ih,
        show splitRecords ('\n' :: '\n' :: rest) = [] :: splitRecords rest from rfl,
        hS]
      rfl
  | case3 c rest h ih =>
      rw [List.cons_append]
      cases rest with
      | nil =>
          rw [show splitRecords [c] = [[c]] from splitRecords_cons c []
            (fun t _ hl => by cases hl)]
          rfl
      | cons r rs =>
          have hcr : ∀ t, c = '\n' → (r :: rs) ++ y = '\n' :: t → False := by
            intro t hc hl
            rw [List.cons_append] at hl
            injection hl with h1 h2
            exact h rs hc (by rw [h1])
          rw [splitRecords_cons c ((r :: rs) ++ y) hcr, ih,
            splitRecords_cons c (r :: rs) h]
          obtain ⟨s, ss, hS⟩ := List.exists_cons_of_ne_nil (splitRecords_ne_nil (r :: rs))
          rw [hS]
          cases ss with
          | nil =>
              obtain ⟨t, ht⟩ := splitRecords_single_head r rs s hS
              subst ht
              have hc2 : ∀ u, c = '\n' → r :: (t ++ y) = '\n' :: u → False := by
                intro u hc hl
                injection hl with h1 h2
                exact h rs hc (by rw [h1])
              show consHead c (splitRecords (r :: (t ++ y))) =
                splitRecords (c :: r :: (t ++ y))
              exact (splitRecords_cons c (r :: (t ++ y)) hc2).symm
          | cons s2 ss2 => rfl

lemma lastD_cons (x : List Char) (ls : List (List Char)) (h : ls ≠ []) :
    lastD (x :: ls) = lastD ls := by
  cases ls with
  | nil => exact absurd rfl h
  | cons a as => rfl

lemma lastD_append (a b : List (List Char)) (h : b ≠ []) :
    lastD (a ++ b) = lastD b := by
  induction a with
  | nil => rfl
  | cons x a' ih =>
      rw [List.cons_append, lastD_cons x (a' ++ b) (by simp [h]), ih]

/-- JS whitespace for `String.prototype.trim` (the characters arising in
this wire format). -/
def isJsSpace (c : Char) : Bool :=
  c = ' ' || c = '\n' || c = '\t' || c = '\r'

/-- `line.startsWith(p)` together with the remainder `line.slice(p.length)`. -/
def stripAfter : List Char → List Char → Option (List Char)
  | [], l => some l
  | _ :: _, [] => none
  | p :: ps, c :: cs => if c = p then stripAfter ps cs else none

/-- `eventStr.split("\n")`. -/
def splitLines : List Char → List (List Char)
  | [] => [[]]
  | '\n' :: rest => [] :: splitLines rest
  | c :: rest => consHead c (splitLines rest)

/-- The per-record line scan of `createSSEParser`: last `event: ` and
last `data: ` line win, other lines are ignored. -/
def scanLines (lines : List (List Char)) : List Char × List Char :=
  lines.foldl
    (fun acc line =>
      match stripAfter ("event: ".toList) line with
      | some r => (r, acc.2)
      | none =>
          match stripAfter ("data: ".toList) line with
          | some r => (acc.1, r)
          | none => acc)
    ([], [])

/-- One record of the split becoming zero or one parsed event: skipped
when whitespace-only, enqueued only when both fields are non-empty. The
same logic serves the per-chunk loop and the flush. -/
def recordOf (s : List Char) : Option (List Char × List Char) :=
  if s.all isJsSpace then none
  else
    let p := scanLines (splitLines s)
    if p.1 ≠ [] && p.2 ≠ [] then some p else none

/-- One `transform(chunk)` call of `createSSEParser`: append to the
buffer, split on the record delimiter, keep the trailing part as the new
buffer, emit the parsed complete records in order. -/
def sseTransform (buffer chunk : List Char) :
    List Char × List (List Char × List Char) :=
  let parts := splitRecords (buffer ++ chunk)
  (lastD parts, parts.dropLast.filterMap recordOf)

/-- The `flush()` call: parse whatever remains buffered. -/
def sseFlush (buffer : List Char) : List (List Char × List Char) :=
  (recordOf buffer).toList

/-- Feeding a sequence of chunks through repeated `transform` calls. -/
def sseFeed : List Char → List (List Char) → List Char × List (List Char × List Char)
  | buffer, [] => (buffer, [])
  | buffer, c :: cs =>
      let p := sseTransform buffer c
      let q := sseFeed p.1 cs
      (q.1, p.2 ++ q.2)

/-- The full parser run: all chunks through `transform`, then `flush`. -/
def runSSEParser (chunks : List (List Char)) : List (List Char × List Char) :=
  let p := sseFeed [] chunks
  p.2 ++ sseFlush p.1

/-- Two consecutive `transform` calls behave like one call on the
concatenated chunk. -/
lemma sseTransform_append (b c1 c2 : List Char) :
    sseTransform b (c1 ++ c2) =
      ((sseTransform (sseTransform b c1).1 c2).1,
       (sseTransform b c1).2 ++ (sseTransform (sseTransform b c1).1 c2).2) := by
  have hne := splitRecords_ne_nil (lastD (splitRecords (b ++ c1)) ++ c2)
  have hsplit : splitRecords (b ++ (c1 ++ c2)) =
      (splitRecords (b ++ c1)).dropLast ++
        splitRecords (lastD (splitRecords (b ++ c1)) ++ c2) := by
    rw [← List.append_assoc]
    exact splitRecords_append (b ++ c1) c2
  show (lastD (splitRecords (b ++ (c1 ++ c2))),
      (splitRecords (b ++ (c1 ++ c2))).dropLast.filterMap recordOf) = _
  rw [hsplit, lastD_append _ _ hne,
    List.dropLast_append_of_ne_nil _ hne, List.filterMap_append]
  rfl

/-- Feeding a non-empty chunk sequence equals feeding its concatenation
as one chunk. -/
lemma sseFeed_as_one_chunk :
    ∀ (cs : List (List Char)) (c : List Char) (b : List Char),
      sseFeed b (c :: cs) = sseTransform b (c ++ cs.flatten) := by
  intro cs
  induction cs with
  | nil =>
      intro c b
      simp [sseFeed, List.flatten]
  | cons c2 cs' ih =>
      intro c b
      show ((sseFeed (sseTransform b c).1 (c2 :: cs')).1,
            (sseTransform b c).2 ++ (sseFeed (sseTransform b c).1 (c2 :: cs')).2) =
          sseTransform b (c ++ (c2 :: cs').flatten)
      rw [show ((c2 :: cs').flatten : List Char) = c2 ++ cs'.flatten from rfl,
        sseTransform_append b c (c2 ++ cs'.flatten), ih c2 (sseTransform b c).1]

/-- C6: feeding the SSE parser any chunking of a character sequence —
one character at a time, or any other cut points — and flushing at the
end produces the same ordered record sequence as one contiguous chunk. -/
theorem sseParser_chunking_invariant (chunks : List (List Char))
    (h : chunks ≠ []) :
    runSSEParser chunks = runSSEParser [chunks.flatten] := by
  obtain ⟨c, cs, rfl⟩ := List.exists_cons_of_ne_nil h
  unfold runSSEParser
  rw [sseFeed_as_one_chunk cs c [], sseFeed_as_one_chunk [] ((c :: cs).flatten) [],
    show ((c :: cs).flatten : List Char) = c ++ cs.flatten from rfl,
    List.flatten_nil, List.append_nil]

/-- A concrete two-record SSE stream used to witness C6. -/
def sseWitnessBytes : List Char :=
  ("event: text\ndata: hi\n\nevent: done\ndata: ok\n\n").toList

/-- Witness for C6: the concrete stream fed one character at a time
parses to the same two records as fed whole. -/
theorem sseParser_chunking_invariant_witness :
    runSSEParser (sseWitnessBytes.map (fun c => [c])) =
      runSSEParser [(sseWitnessBytes.map (fun c => [c])).flatten] ∧
    runSSEParser [sseWitnessBytes] =
      [("text".toList, "hi".toList), ("done".toList, "ok".toList)] :=
  ⟨sseParser_chunking_invariant (sseWitnessBytes.map (fun c => [c])) (by decide),
   by decide⟩

/-! ## Streaming metadata/text transform (`streamText` in sdk/src/index.ts)

The three promises returned by `streamText` are modelled by their
observable settlement state; JS promise `resolve`/`reject` after
settlement are no-ops. -/

/-- `Usage` from sdk/src/types.ts. -/
structure Usage where
  inputTokens : Int
  outputTokens : Int
  totalTokens : Int
  deriving DecidableEq, Repr

/-- Observable state of a JS promise held by `streamText`. -/
inductive PromiseState (α : Type)
  | pending
  | resolved (v : α)
  | rejected (code : String)
  deriving DecidableEq, Repr

/-- `resolve(v)`: settles a pending promise, no-op afterwards. -/
def PromiseState.resolveP : PromiseState α → α → PromiseState α
  | .pending, v => .resolved v
  | p, _ => p

/-- `reject(e)`: settles a pending promise, no-op afterwards. -/
def PromiseState.rejectP : PromiseState α → String → PromiseState α
  | .pending, c => .rejected c
  | p, _ => p

/-- The post-`JSON.parse` view of one SSE event entering the
`streamText` transform; `malformed name` models an event of that name
whose `data` payload failed to parse. -/
inductive SSEMsg
  | session (sid : String)
  | text (t : String)
  | result (sid : String) (usage : Usage)
  | error (msg : String) (code : Option String)
  | done
  | other (name : String)
  | malformed (name : String)
  deriving DecidableEq, Repr

/-- The closure state of `streamText`'s transform. -/
structure StreamState where
  sessionP : PromiseState String
  usageP : PromiseState Usage
  textP : PromiseState String
  accumulatedText : String
  sessionIdReceived : Bool
  usageReceived : Bool
  outputChunks : List String
  errored : Bool
  deriving DecidableEq, Repr

def initStreamState : StreamState :=
  { sessionP := .pending, usageP := .pending, textP := .pending,
    accumulatedText := "", sessionIdReceived := false, usageReceived := false,
    outputChunks := [], errored := false }

/-- The error code chosen for an `error` event:
`(parsed.code as any) || "STREAM_ERROR"`. -/
def errorCode (code : Option String) : String :=
  match code with
  | some c => if c = "" then "STREAM_ERROR" else c
  | none => "STREAM_ERROR"

/-- One `transform(sseEvent)` call of `streamText`. After
`controller.error` the stream is failed and no further transform runs. -/
def stepEvent (s : StreamState) (e : SSEMsg) : StreamState :=
  if s.errored then s
  else
    match e with
    | .session sid =>
        if s.sessionIdReceived then s
        else { s with sessionIdReceived := true, sessionP := s.sessionP.resolveP sid }
    | .text t =>
        { s with accumulatedText := s.accumulatedText ++ t,
                 outputChunks := s.outputChunks ++ [t] }
    | .result sid u =>
        let s1 := { s with usageReceived := true, usageP := s.usageP.resolveP u }
        if s1.sessionIdReceived then s1
        else { s1 with sessionIdReceived := true,
                       sessionP := s1.sessionP.resolveP sid }
    | .error _ code =>
        let c := errorCode code
        let s1 := { s with usageReceived := true,
                           usageP := s.usageP.rejectP c,
                           textP := s.textP.rejectP c }
        let s2 := if s1.sessionIdReceived then s1
          else { s1 with sessionP := s1.sessionP.rejectP c }
        { s2 with errored := true }
    | .done => { s with textP := s.textP.resolveP s.accumulatedText }
    | .other _ => s
    | .malformed name =>
        if (["session", "result", "error", "done"] : List String).contains name then
          let s1 := if s.usageReceived then s
            else { s with usageReceived := true,
                          usageP := s.usageP.rejectP "SSE_PARSE_ERROR" }
          let s2 := { s1 with textP := s1.textP.rejectP "SSE_PARSE_ERROR" }
          let s3 := if s2.sessionIdReceived then s2
            else { s2 with sessionP := s2.sessionP.rejectP "SSE_PARSE_ERROR" }
          { s3 with errored := true }
        else s

/-- The `flush()` call of `streamText` (runs only if the stream did not
error): reject unsatisfied metadata promises, resolve the text promise
with whatever accumulated. -/
def flushStream (s : StreamState) : StreamState :=
  let s1 := if s.sessionIdReceived then s
    else { s with sessionP := s.sessionP.rejectP "NO_SESSION" }
  let s2 := if s1.usageReceived then s1
    else { s1 with usageP := s1.usageP.rejectP "NO_USAGE" }
  { s2 with textP := s2.textP.resolveP s2.accumulatedText }

def processFrom (s : StreamState) (events : List SSEMsg) : StreamState :=
  events.foldl stepEvent s

/-- The whole stream consumption: every event, then flush (the Streams
API skips `flush` when the stream errored). -/
def runStream (events : List SSEMsg) : StreamState :=
  let s := processFrom initStreamState events
  if s.errored then s else flushStream s


/-- Events that can occur without failing the stream. -/
def SSEMsg.wellFormed : SSEMsg → Bool
  | .error _ _ => false
  | .malformed _ => false
  | _ => true

/-- Events that are neither terminal markers nor failures. -/
def SSEMsg.nonTerminal : SSEMsg → Bool
  | .session _ => true
  | .text _ => true
  | .other _ => true
  | _ => false

/-- The session identifier carried by the first `session` or `result`
event, whichever comes first. -/
def firstSessionId : List SSEMsg → Option String
  | [] => none
  | .session sid :: _ => some sid
  | .result sid _ :: _ => some sid
  | _ :: rest => firstSessionId rest

/-- The usage carried by the first `result` event. -/
def firstUsage : List SSEMsg → Option Usage
  | [] => none
  | .result _ u :: _ => some u
  | _ :: rest => firstUsage rest

/-- Concatenation of all `text` payloads, in order. -/
def concatTexts : List SSEMsg → String
  | [] => ""
  | .text t :: rest => t ++ concatTexts rest
  | _ :: rest => concatTexts rest

lemma stepEvent_session_received (s : StreamState) (e : SSEMsg)
    (h : s.sessionIdReceived = true) :
    (stepEvent s e).sessionP = s.sessionP ∧
      (stepEvent s e).sessionIdReceived = true := by
  cases e <;> simp only [stepEvent] <;> split_ifs <;> simp_all

lemma stepEvent_usage_settled (s : StreamState) (e : SSEMsg) (u : Usage)
    (h : s.usageP = PromiseState.resolved u) :
    (stepEvent s e).usageP = PromiseState.resolved u := by
  cases e <;> simp only [stepEvent] <;> split_ifs <;>
    simp_all [PromiseState.resolveP, PromiseState.rejectP]

lemma processFrom_session_preserved (events : List SSEMsg) :
    ∀ s : StreamState, s.sessionIdReceived = true →
      (processFrom s events).sessionP = s.sessionP := by
  induction events with
  | nil => intro s _; rfl
  | cons e rest ih =>
      intro s h
      show (processFrom (stepEvent s e) rest).sessionP = s.sessionP
      rw [ih _ (stepEvent_session_received s e h).2,
        (stepEvent_session_received s e h).1]

lemma processFrom_usage_settled (events : List SSEMsg) :
    ∀ (s : StreamState) (u : Usage), s.usageP = PromiseState.resolved u →
      (processFrom s events).usageP = PromiseState.resolved u := by
  induction events with
  | nil => intro s u h; exact h
  | cons e rest ih =>
      intro s u h
      exact ih _ u (stepEvent_usage_settled s e u h)

lemma processFrom_session_resolves (events : List SSEMsg) :
    (∀ e ∈ events, e.wellFormed = true) →
    ∀ s : StreamState, s.errored = false → s.sessionIdReceived = false →
      s.sessionP = PromiseState.pending →
      (processFrom s events).sessionP =
        (match firstSessionId events with
         | some sid => PromiseState.resolved sid
         | none => PromiseState.pending) := by
  induction events with
  | nil => intro _ s _ _ hp; exact hp
  | cons e rest ih =>
      intro hw s herr hflag hp
      have hwrest : ∀ e2 ∈ rest, e2.wellFormed = true :=
        fun e2 h2 => hw e2 (List.mem_cons_of_mem _ h2)
      have hwe : e.wellFormed = true := hw e (List.mem_cons_self _ _)
      show (processFrom (stepEvent s e) rest).sessionP = _
      cases e with
      | session sid =>
          rw [processFrom_session_preserved rest _ (by simp [stepEvent, herr, hflag])]
          simp [stepEvent, herr, hflag, hp, PromiseState.resolveP, firstSessionId]
      | result sid u =>
          rw [processFrom_session_preserved rest _ (by simp [stepEvent, herr, hflag])]
          simp [stepEvent, herr, hflag, hp, PromiseState.resolveP, firstSessionId]
      | text t =>
          rw [ih hwrest _ (by simp [stepEvent, herr]) (by simp [stepEvent, herr, hflag])
            (by simp [stepEvent, herr, hp])]
          simp [firstSessionId]
      | done =>
          rw [ih hwrest _ (by simp [stepEvent, herr]) (by simp [stepEvent, herr, hflag])
            (by simp [stepEvent, herr, hp])]
          simp [firstSessionId]
      | other n =>
          rw [ih hwrest _ (by simp [stepEvent, herr]) (by simp [stepEvent, herr, hflag])
            (by simp [stepEvent, herr, hp])]
          simp [firstSessionId]
      | error m c => simp [SSEMsg.wellFormed] at hwe
      | malformed n => simp [SSEMsg.wellFormed] at hwe

lemma processFrom_usage_resolves (events : List SSEMsg) :
    (∀ e ∈ events, e.wellFormed = true) →
    ∀ s : StreamState, s.errored = false → s.usageP = PromiseState.pending →
      (processFrom s events).usageP =
        (match firstUsage events with
         | some u => PromiseState.resolved u
         | none => PromiseState.pending) := by
  induction events with
  | nil => intro _ s _ hp; exact hp
  | cons e rest ih =>
      intro hw s herr hp
      have hwrest : ∀ e2 ∈ rest, e2.wellFormed = true :=
        fun e2 h2 => hw e2 (List.mem_cons_of_mem _ h2)
      have hwe : e.wellFormed = true := hw e (List.mem_cons_self _ _)
      show (processFrom (stepEvent s e) rest).usageP = _
      cases e with
      | result sid u =>
          rw [processFrom_usage_settled rest _ u
            (by simp [stepEvent, herr, hp, PromiseState.resolveP]; split <;> rfl)]
          simp [firstUsage]
      | session sid =>
          rw [ih hwrest _ (by simp [stepEvent, herr]; split <;> simp [herr])
            (by simp [stepEvent, herr, hp]; split <;> simp [hp])]
          simp [firstUsage]
      | text t =>
          rw [ih hwrest _ (by simp [stepEvent, herr]) (by simp [stepEvent, herr, hp])]
          simp [firstUsage]
      | done =>
          rw [ih hwrest _ (by simp [stepEvent, herr]) (by simp [stepEvent, herr, hp])]
          simp [firstUsage]
      | other n =>
          rw [ih hwrest _ (by simp [stepEvent, herr]) (by simp [stepEvent, herr, hp])]
          simp [firstUsage]
      | error m c => simp [SSEMsg.wellFormed] at hwe
      | malformed n => simp [SSEMsg.wellFormed] at hwe

/-- C9: over any stream of events none of which fails the stream, the
session promise is resolved exactly when a `session` or `result` event
has arrived, with the identifier of the first such event; the usage
promise is resolved exactly when a `result` event has arrived, with the
first result's usage. -/
theorem streamText_metadata_order (events : List SSEMsg)
    (hw : ∀ e ∈ events, e.wellFormed = true) :
    (processFrom initStreamState events).sessionP =
      (match firstSessionId events with
       | some sid => PromiseState.resolved sid
       | none => PromiseState.pending) ∧
    (processFrom initStreamState events).usageP =
      (match firstUsage events with
       | some u => PromiseState.resolved u
       | none => PromiseState.pending) :=
  ⟨processFrom_session_resolves events hw initStreamState rfl rfl rfl,
   processFrom_usage_resolves events hw initStreamState rfl rfl⟩

lemma stepEvent_nonterminal (s : StreamState) (e : SSEMsg)
    (he : e.nonTerminal = true) (herr : s.errored = false) :
    (stepEvent s e).errored = false ∧
    (stepEvent s e).usageReceived = s.usageReceived ∧
    (stepEvent s e).usageP = s.usageP ∧
    (stepEvent s e).textP = s.textP ∧
    (stepEvent s e).accumulatedText = s.accumulatedText ++ concatTexts [e] := by
  cases e <;> simp_all [stepEvent, SSEMsg.nonTerminal, concatTexts]
  split_ifs <;> simp_all

lemma processFrom_nonterminal (events : List SSEMsg) :
    (∀ e ∈ events, e.nonTerminal = true) →
    ∀ s : StreamState, s.errored = false →
      (processFrom s events).errored = false ∧
      (processFrom s events).usageReceived = s.usageReceived ∧
      (processFrom s events).usageP = s.usageP ∧
      (processFrom s events).textP = s.textP ∧
      (processFrom s events).accumulatedText =
        s.accumulatedText ++ concatTexts events := by
  induction events with
  | nil =>
      intro _ s herr
      exact ⟨herr, rfl, rfl, rfl, by simp [concatTexts, processFrom]⟩
  | cons e rest ih =>
      intro h s herr
      obtain ⟨p1, p2, p3, p4, p5⟩ :=
        stepEvent_nonterminal s e (h e (List.mem_cons_self _ _)) herr
      obtain ⟨q1, q2, q3, q4, q5⟩ :=
        ih (fun e2 h2 => h e2 (List.mem_cons_of_mem _ h2)) (stepEvent s e) p1
      refine ⟨q1,
        by show (processFrom (stepEvent s e) rest).usageReceived = s.usageReceived
           rw [q2, p2],
        by show (processFrom (stepEvent s e) rest).usageP = s.usageP
           rw [q3, p3],
        by show (processFrom (stepEvent s e) rest).textP = s.textP
           rw [q4, p4], ?_⟩
      show (processFrom (stepEvent s e) rest).accumulatedText = _
      rw [q5, p5]
      cases e <;> simp_all [concatTexts, String.append_assoc, SSEMsg.nonTerminal]

/-- C3 (amended): when the stream ends after only non-terminal events —
no `done`, no `result`, no failure — the flush resolves the text promise
with the accumulated partial text (best effort) while the usage promise
is rejected with `NO_USAGE`. -/
theorem streamEnd_without_terminal (events : List SSEMsg)
    (h : ∀ e ∈ events, e.nonTerminal = true) :
    (runStream events).textP = PromiseState.resolved (concatTexts events) ∧
    (runStream events).usageP = PromiseState.rejected "NO_USAGE" := by
  obtain ⟨q1, q2, q3, q4, q5⟩ :=
    processFrom_nonterminal events h initStreamState rfl
  have hur : (processFrom initStreamState events).usageReceived = false := q2.trans rfl
  have hup : (processFrom initStreamState events).usageP = PromiseState.pending :=
    q3.trans rfl
  have htp : (processFrom initStreamState events).textP = PromiseState.pending :=
    q4.trans rfl
  have hacc : (processFrom initStreamState events).accumulatedText =
      concatTexts events := q5.trans rfl
  have hrun : runStream events = flushStream (processFrom initStreamState events) := by
    simp only [runStream]
    rw [q1]
    simp
  rw [hrun]
  simp only [flushStream]
  constructor
  · split <;> simp [hur, hup, htp, hacc, PromiseState.rejectP, PromiseState.resolveP]
  · split <;> simp [hur, hup, htp, hacc, PromiseState.rejectP, PromiseState.resolveP]

/-- C3 counterexample: a stream that ends with no `done` and no `result`
leaves the accumulated-text promise RESOLVED with the partial text
(`"hi"`) — it is not rejected. -/
theorem streamEnd_without_done_resolves_text :
    (runStream [SSEMsg.session "s1", SSEMsg.text "hi"]).textP =
      PromiseState.resolved "hi" := by decide

/-- Witness for the amended C3 at a concrete stream. -/
theorem streamEnd_without_terminal_witness :
    (runStream [SSEMsg.session "s1", SSEMsg.text "par",
        SSEMsg.text "tial"]).textP = PromiseState.resolved "partial" ∧
    (runStream [SSEMsg.session "s1", SSEMsg.text "par",
        SSEMsg.text "tial"]).usageP = PromiseState.rejected "NO_USAGE" :=
  ⟨(streamEnd_without_terminal _ (by decide)).1,
   (streamEnd_without_terminal _ (by decide)).2⟩

/-- Witness for C9 at a concrete stream: the session promise takes the
identifier of the `session` event (which precedes the `result`), the
usage promise takes the result's usage. -/
theorem streamText_metadata_order_witness :
    (processFrom initStreamState [SSEMsg.text "a", SSEMsg.session "s1",
        SSEMsg.result "s2" ⟨1, 2, 3⟩, SSEMsg.done]).sessionP =
      PromiseState.resolved "s1" ∧
    (processFrom initStreamState [SSEMsg.text "a", SSEMsg.session "s1",
        SSEMsg.result "s2" ⟨1, 2, 3⟩, SSEMsg.done]).usageP =
      PromiseState.resolved ⟨1, 2, 3⟩ :=
  ⟨(streamText_metadata_order _ (by decide)).1,
   (streamText_metadata_order _ (by decide)).2⟩
